import Mathlib

/-!
Verification of the beartype core against its natural-language specification.

The development shallowly embeds three subsystems:

* origin resolution, translated from `src/beartype/_util/hint/utilhintget.py`
  (`get_hint_type_origin` and `get_hint_type_origin_or_none`);
* the subscripted-validator DSL exercised by
  `src/beartype_test/a00_unit/a20_api/vale/test_vale_iscls.py`.  The
  implementing modules (`beartype.vale._valeiscls`, `beartype._vale._valesub`,
  `beartype._util.cache.utilcachecall`) are not part of the visible source, so
  those definitions are modelled from the specification text, as flagged in
  their doc comments;
* the memoized platform tester from `src/beartype/_util/os/utilostest.py`.

Python runtime classes are abstracted as an arbitrary type `Cls` together with
boolean functions giving the subclass relation, the issubclassable test and the
fully qualified name; Python values are embedded as `Val` (a class or a
non-class carrying its textual representation).  Python exceptions become
`Except` error results.  Object identity, which Python observes with `is`, is
embedded by tagging each constructed validator with an allocation counter: two
subscription results are reference-identical exactly when their tags coincide.
-/

namespace Beartype

/-! ### String occurrence helpers

Used to state that one representation string occurs inside another, without
appealing to any library substring machinery. -/

/-- Boolean test that the first character list is an initial segment of the
second. -/
def starts_with : List Char → List Char → Bool
  | [], _ => true
  | _ :: _, [] => false
  | a :: as, b :: bs => a == b && starts_with as bs

/-- Boolean test that the first character list occurs contiguously inside the
second. -/
def occurs_in (needle : List Char) : List Char → Bool
  | [] => needle.isEmpty
  | b :: bs => starts_with needle (b :: bs) || occurs_in needle bs

/-- A string occurs in another when its character list occurs in the character
list of the other. -/
def str_occurs (needle hay : String) : Bool :=
  occurs_in needle.data hay.data

/-- Boolean test that an `Except` result is an error. -/
def is_error {ε α : Type} : Except ε α → Bool
  | .error _ => true
  | .ok _ => false

/-! ### Origin resolution

Embedded from `src/beartype/_util/hint/utilhintget.py`.  A hint is one of:
a runtime class (for which `isinstance(hint, type)` holds), a hashable
non-class object (for which the module-level callable
`TYPING_ATTR_TO_TYPE_GET` — the bound `get` method of a dictionary mapping
argumentless typing attributes to their origin types — is consulted with
default `None`), or an unhashable object (for which the hash-based dictionary
lookup raises `TypeError`, the error kind the specification names
`UnhashableInputError`).  The dictionary itself lives in
`beartype._util.hint.pep.utilhintpepdata`, outside the visible source, so it
is kept abstract as a function `table`. -/

inductive Hint (Cls : Type) where
  | cls (c : Cls)
  | attr (a : Nat)
  | unhashable (u : Nat)
deriving DecidableEq

inductive HintError where
  | unhashableInput
  | noOrigin (msg : String)
deriving DecidableEq

/-- Message of the exception raised by `get_hint_type_origin`, from the format
string at `utilhintget.py` lines 70-72. -/
def noOriginMsg (rep : String) : String :=
  "PEP-agnostic type hint " ++ rep ++ " originates from no non-\"typing\" type."

/-- Embedding of `get_hint_type_origin_or_none`: a class is returned as is;
any other hashable hint is looked up in the typing-attribute table with
default `None`; an unhashable hint makes the hash-based lookup raise. -/
def get_hint_type_origin_or_none {Cls : Type} (table : Nat → Option Cls) :
    Hint Cls → Except HintError (Option Cls)
  | .cls c => .ok (some c)
  | .attr a => .ok (table a)
  | .unhashable _ => .error .unhashableInput

/-- Embedding of `get_hint_type_origin`: delegates to
`get_hint_type_origin_or_none`, returns the origin when one exists, and
raises `BeartypeDecorHintException` with the formatted message otherwise.
`hrepr` abstracts the Python `repr` of a hint. -/
def get_hint_type_origin {Cls : Type} (table : Nat → Option Cls)
    (hrepr : Hint Cls → String) (h : Hint Cls) : Except HintError Cls :=
  match get_hint_type_origin_or_none table h with
  | .error e => .error e
  | .ok (some t) => .ok t
  | .ok none => .error (.noOrigin (noOriginMsg (hrepr h)))

/-! ### The subscripted-validator DSL

The modules implementing `beartype.vale.IsSubclass` are absent from the
visible source (only their unit tests are present), so the definitions below
are modelled from the specification: §3 (data model), §4.2 (validator cache),
§4.3 (subclass validator kind), §4.4 (boolean composition algebra) and §9
(tagged-union re-architecture of the composite validators). -/

/-- A Python value as seen by the validator subsystem: either a runtime class
or a non-class object carrying its textual representation. -/
inductive Val (Cls : Type) where
  | cls (c : Cls)
  | nonCls (rep : String)
deriving DecidableEq

/-- The single exception kind `BeartypeValeSubscriptionException`, carrying
its diagnostic message. -/
structure SubscriptionError where
  msg : String
deriving DecidableEq

/-- Modelled from the spec: the stateless data a Validator Kind needs about
runtime classes — the subclass relation `sub c k` (Python
`issubclass(c, k)`), the suitability test `issub k` (whether `k` may stand as
the second operand of `issubclass` without raising), and the fully qualified
name used in representations. -/
structure Kind (Cls : Type) where
  sub : Cls → Cls → Bool
  issub : Cls → Bool
  qn : Cls → String

/-- Modelled from the spec: a Subscripted Validator is a leaf holding the
canonicalized candidate classes, or a boolean composite of validators
(§4.4, §9). -/
inductive Validator (Cls : Type) where
  | leaf (candidates : List Cls)
  | vand (l r : Validator Cls)
  | vor (l r : Validator Cls)
  | vnot (v : Validator Cls)
deriving DecidableEq

/-- Modelled from the spec: the compiled predicate `is_valid`.  A leaf accepts
exactly the classes that subclass at least one candidate and rejects every
non-class; composites combine the operand predicates with the boolean
operators (§4.3, §4.4). -/
def is_valid {Cls : Type} (K : Kind Cls) : Validator Cls → Val Cls → Bool
  | .leaf cands, .cls c => cands.any (fun cand => K.sub c cand)
  | .leaf _, .nonCls _ => false
  | .vand l r, v => is_valid K l v && is_valid K r v
  | .vor l r, v => is_valid K l v || is_valid K r v
  | .vnot w, v => !(is_valid K w v)

/-- Comma-join of a list of names, in order. -/
def join_names : List String → String
  | [] => ""
  | [s] => s
  | s :: s2 :: rest => s ++ ", " ++ join_names (s2 :: rest)

/-- Whether a validator is a composite (anything but a leaf). -/
def is_composite {Cls : Type} : Validator Cls → Bool
  | .leaf _ => false
  | .vand _ _ => true
  | .vor _ _ => true
  | .vnot _ => true

/-- Parenthesize a representation when the flag is set. -/
def paren_if (b : Bool) (s : String) : String :=
  if b then "(" ++ s ++ ")" else s

/-- Modelled from the spec: the representation string.  A leaf renders the
kind name followed by the bracketed comma-joined fully qualified candidate
names in subscription order; composites join the operand representations with
the operator marker, parenthesizing every non-leaf operand (§4.3, §6). -/
def validator_repr {Cls : Type} (K : Kind Cls) : Validator Cls → String
  | .leaf cands => "IsSubclass[" ++ join_names (cands.map K.qn) ++ "]"
  | .vand l r =>
      paren_if (is_composite l) (validator_repr K l) ++ " & " ++
      paren_if (is_composite r) (validator_repr K r)
  | .vor l r =>
      paren_if (is_composite l) (validator_repr K l) ++ " | " ++
      paren_if (is_composite r) (validator_repr K r)
  | .vnot w => "~(" ++ validator_repr K w ++ ")"

/-- Scan the argument list left to right, returning the classes when every
argument is a class and otherwise the zero-based position and representation
of the first non-class argument.  The counter `i` is the position of the head
of the remaining list. -/
def classes_or_first_nonclass {Cls : Type} :
    List (Val Cls) → Nat → Except (Nat × String) (List Cls)
  | [], _ => .ok []
  | .cls c :: rest, i =>
      match classes_or_first_nonclass rest (i + 1) with
      | .ok cs => .ok (c :: cs)
      | .error e => .error e
  | .nonCls rep :: _, i => .error (i, rep)

/-- First class of the list that is not issubclassable, when one exists. -/
def first_non_issubclassable {Cls : Type} (K : Kind Cls) : List Cls → Option Cls
  | [] => none
  | c :: rest => if K.issub c then first_non_issubclassable K rest else some c

/-- Modelled from the spec: the argument-validation rule of the subclass
Validator Kind (§4.3) — arity at least one, every argument a class, every
class issubclassable; the first failing check raises
`BeartypeValeSubscriptionException`, and on success the candidate classes are
returned in subscription order. -/
def validate_is_subclass_args {Cls : Type} (K : Kind Cls)
    (args : List (Val Cls)) : Except SubscriptionError (List Cls) :=
  match args with
  | [] => .error ⟨"IsSubclass requires at least one class."⟩
  | _ :: _ =>
      match classes_or_first_nonclass args 0 with
      | .error (i, rep) =>
          .error ⟨"IsSubclass argument " ++ toString i ++
            " is not a class: " ++ rep⟩
      | .ok cs =>
          match first_non_issubclassable K cs with
          | some c =>
              .error ⟨"IsSubclass argument " ++ K.qn c ++
                " is not an issubclassable class."⟩
          | none => .ok cs

/-- Modelled from the spec: the process-wide Validator Cache (§4.2), embedded
as explicit state.  Each entry maps a canonicalized argument tuple to the
allocation tag and the Subscripted Validator constructed for it; `nextId` is
the next fresh allocation tag.  Equal tags model Python reference identity. -/
structure CacheState (Cls : Type) where
  entries : List (List (Val Cls) × Nat × Validator Cls)
  nextId : Nat
deriving DecidableEq

/-- The cache at process start: no entries, first allocation tag 0. -/
def emptyCache {Cls : Type} : CacheState Cls := ⟨[], 0⟩

/-- Lookup of a canonicalized key among the cache entries. -/
def cache_lookup {Cls : Type} [DecidableEq Cls] (key : List (Val Cls)) :
    List (List (Val Cls) × Nat × Validator Cls) → Option (Nat × Validator Cls)
  | [] => none
  | (k, iv) :: rest => if k = key then some iv else cache_lookup key rest

/-- Modelled from the spec: subscription of the subclass Validator Kind,
`IsSubclass[args]`, combining the cache get-or-create discipline (§4.2) with
the argument-validation rule (§4.3).  The cache is consulted first; a hit
returns the existing object unchanged with no re-validation; on a miss the
arguments are validated and only on success is a fresh leaf validator
constructed, tagged, inserted and returned. -/
def is_subclass_getitem {Cls : Type} [DecidableEq Cls] (K : Kind Cls)
    (st : CacheState Cls) (args : List (Val Cls)) :
    Except SubscriptionError (Nat × Validator Cls × CacheState Cls) :=
  match cache_lookup args st.entries with
  | some (i, v) => .ok (i, v, st)
  | none =>
      match validate_is_subclass_args K args with
      | .error e => .error e
      | .ok cs =>
          let v := Validator.leaf cs
          .ok (st.nextId, v, ⟨(args, st.nextId, v) :: st.entries, st.nextId + 1⟩)

/-- Modelled from the spec: instantiating the kind itself — calling
`IsSubclass(...)` instead of subscripting it — always raises
`BeartypeValeSubscriptionException`; subscription is the only constructor. -/
def is_subclass_new {Cls : Type} (args : List (Val Cls)) :
    Except SubscriptionError (Validator Cls) :=
  let _ := args
  .error ⟨"IsSubclass is not instantiable; subscript it instead as IsSubclass[...]."⟩

/-- A single cache entry is well formed when its allocation tag lies below the
bound `n` and its validator is exactly the leaf the validation rule rebuilds
from its key. -/
def entry_ok {Cls : Type} [DecidableEq Cls] (K : Kind Cls) (n : Nat)
    (e : List (Val Cls) × Nat × Validator Cls) : Bool :=
  decide (e.2.1 < n) &&
    (match validate_is_subclass_args K e.1 with
     | .ok cs => e.2.2 == Validator.leaf cs
     | .error _ => false)

/-- Well-formedness of a cache state: every entry is well formed below
`nextId` and allocation tags are pairwise distinct.  Every state reachable
from `emptyCache` by subscription satisfies this invariant. -/
@[reducible]
def cache_wf {Cls : Type} [DecidableEq Cls] (K : Kind Cls)
    (st : CacheState Cls) : Prop :=
  (∀ e ∈ st.entries, entry_ok K st.nextId e = true) ∧
    (st.entries.map (fun e => e.2.1)).Nodup

/-! ### Concrete class universe

Mirrors the classes used by the unit tests in
`src/beartype_test/a00_unit/a20_api/vale/test_vale_iscls.py` and the fixture
module `beartype_test.a00_unit.data.data_type`: `Class`, `Subclass(Class)`,
`SubclassSubclass(Subclass)`, the builtins `str`, `bytes` and `type`, and the
non-issubclassable fixture class.  Used to instantiate witnesses. -/

inductive TCls where
  | tClass
  | tSubclass
  | tSubclassSub
  | tStr
  | tBytes
  | tType
  | tNonIssub
deriving DecidableEq

/-- Proper reflexive-transitive ancestor list of each test class. -/
def tAncestors : TCls → List TCls
  | .tClass => [.tClass]
  | .tSubclass => [.tSubclass, .tClass]
  | .tSubclassSub => [.tSubclassSub, .tSubclass, .tClass]
  | .tStr => [.tStr]
  | .tBytes => [.tBytes]
  | .tType => [.tType]
  | .tNonIssub => [.tNonIssub]

/-- Fully qualified name of each test class. -/
def tQualname : TCls → String
  | .tClass => "beartype_test.a00_unit.data.data_type.Class"
  | .tSubclass => "beartype_test.a00_unit.data.data_type.Subclass"
  | .tSubclassSub => "beartype_test.a00_unit.data.data_type.SubclassSubclass"
  | .tStr => "str"
  | .tBytes => "bytes"
  | .tType => "type"
  | .tNonIssub => "beartype_test.a00_unit.data.data_type.NonIssubclassableClass"

/-- The subclass Validator Kind over the test class universe. -/
def tKind : Kind TCls :=
  ⟨fun a b => (tAncestors a).contains b,
   fun c => !(c == .tNonIssub),
   tQualname⟩

/-! ### Memoized platform tester

The body of `is_os_macos` is embedded from
`src/beartype/_util/os/utilostest.py`; the `callable_cached` decorator lives
in `beartype._util.cache.utilcachecall`, outside the visible source, so the
memoization discipline is modelled from the spec and the docstring
("this tester is memoized"): the first call evaluates the body on the current
`platform.system()` result and stores the boolean; every later call returns
the stored boolean without re-reading the environment. -/

/-- Body of `is_os_macos`, from `utilostest.py` line 30: compare the
`platform.system()` result against the literal `Darwin`. -/
def is_os_macos_body (system_result : String) : Bool :=
  system_result == "Darwin"

/-- Modelled from the spec: one memoized call.  The cache is `none` before
the first call; a populated cache short-circuits the body. -/
def cached_call (cache : Option Bool) (system_result : String) :
    Bool × Option Bool :=
  match cache with
  | some b => (b, some b)
  | none =>
      let r := is_os_macos_body system_result
      (r, some r)

/-- The result and cache after the call with index `n`, where `env k` is what
`platform.system()` would return at the time of call `k` (the environment may
change between calls). -/
def is_os_macos_calls (env : Nat → String) : Nat → Bool × Option Bool
  | 0 => cached_call none (env 0)
  | n + 1 => cached_call (is_os_macos_calls env n).2 (env (n + 1))

/-! ### Helper lemmas: string occurrence -/

theorem starts_with_append (n r : List Char) : starts_with n (n ++ r) = true := by
  induction n with
  | nil => rfl
  | cons a as ih => simp [starts_with, ih]

theorem starts_with_refl (n : List Char) : starts_with n n = true := by
  simpa using starts_with_append n []

theorem starts_with_extend (n : List Char) :
    ∀ h r : List Char, starts_with n h = true → starts_with n (h ++ r) = true := by
  induction n with
  | nil => intro h r _; rfl
  | cons a as ih =>
    intro h r hs
    cases h with
    | nil => simp [starts_with] at hs
    | cons b bs =>
      simp [starts_with] at hs ⊢
      exact ⟨hs.1, ih bs r hs.2⟩

theorem occurs_in_of_starts (n h : List Char) (hs : starts_with n h = true) :
    occurs_in n h = true := by
  cases h with
  | nil =>
    cases n with
    | nil => rfl
    | cons a as => simp [starts_with] at hs
  | cons b bs => simp [occurs_in, hs]

theorem occurs_in_append_right (n l h : List Char) (ho : occurs_in n h = true) :
    occurs_in n (l ++ h) = true := by
  induction l with
  | nil => simpa using ho
  | cons a as ih => simp [occurs_in, ih]

theorem occurs_in_append_left (n h r : List Char) (ho : occurs_in n h = true) :
    occurs_in n (h ++ r) = true := by
  induction h with
  | nil =>
    have hn : n = [] := by
      cases n with
      | nil => rfl
      | cons a as => simp [occurs_in] at ho
    subst hn
    exact occurs_in_of_starts [] r rfl
  | cons b bs ih =>
    simp only [occurs_in, Bool.or_eq_true] at ho
    cases ho with
    | inl hst =>
      have hext := starts_with_extend n (b :: bs) r hst
      simp only [List.cons_append, occurs_in, Bool.or_eq_true]
      exact Or.inl hext
    | inr hoc => simp [occurs_in, ih hoc]

theorem str_occurs_refl (n : String) : str_occurs n n = true :=
  occurs_in_of_starts n.data n.data (starts_with_refl n.data)

theorem str_occurs_append_left (n l r : String) (h : str_occurs n l = true) :
    str_occurs n (l ++ r) = true :=
  occurs_in_append_left n.data l.data r.data h

theorem str_occurs_append_right (n l r : String) (h : str_occurs n r = true) :
    str_occurs n (l ++ r) = true :=
  occurs_in_append_right n.data l.data r.data h

theorem str_occurs_mid (n l m r : String) (h : str_occurs n m = true) :
    str_occurs n (l ++ m ++ r) = true :=
  str_occurs_append_left n (l ++ m) r (str_occurs_append_right n l m h)

theorem str_occurs_join_names (s : String) (l : List String) (hs : s ∈ l) :
    str_occurs s (join_names l) = true := by
  induction l with
  | nil => cases hs
  | cons a rest ih =>
    cases rest with
    | nil =>
      have hsa : s = a := by simpa using hs
      subst hsa
      simpa [join_names] using str_occurs_refl s
    | cons b rest2 =>
      rcases List.mem_cons.mp hs with h1 | h2
      · subst h1
        have hj : join_names (s :: b :: rest2) =
            s ++ ", " ++ join_names (b :: rest2) := rfl
        rw [hj]
        exact str_occurs_append_left s (s ++ ", ") _
          (str_occurs_append_left s s ", " (str_occurs_refl s))
      · have hj : join_names (a :: b :: rest2) =
            a ++ ", " ++ join_names (b :: rest2) := rfl
        rw [hj]
        exact str_occurs_append_right s (a ++ ", ") _ (ih h2)

/-! ### Claims about origin resolution -/

/-- C4: origin resolution round trip.  A descriptor that is itself a runtime
class is returned unchanged by `get_hint_type_origin_or_none` (and by the
strict variant); a hashable descriptor with no mapped origin yields `None`
from the lenient variant while the strict variant raises the no-origin error
whose message carries the representation of the offending descriptor; and the
strict variant never returns an absent origin — every success of
`get_hint_type_origin` is a success of the lenient variant with an actual
origin type. -/
theorem origin_resolution_round_trip {Cls : Type} (table : Nat → Option Cls)
    (hrepr : Hint Cls → String) :
    (∀ c : Cls,
        get_hint_type_origin_or_none table (.cls c) = .ok (some c) ∧
        get_hint_type_origin table hrepr (.cls c) = .ok c) ∧
    (∀ a : Nat, table a = none →
        get_hint_type_origin_or_none table (.attr a) = .ok none ∧
        get_hint_type_origin table hrepr (.attr a) =
          .error (.noOrigin (noOriginMsg (hrepr (.attr a)))) ∧
        str_occurs (hrepr (.attr a)) (noOriginMsg (hrepr (.attr a))) = true) ∧
    (∀ (h : Hint Cls) (t : Cls), get_hint_type_origin table hrepr h = .ok t →
        get_hint_type_origin_or_none table h = .ok (some t)) := by
  refine ⟨fun c => ⟨rfl, rfl⟩, fun a ha => ⟨?_, ?_, ?_⟩, fun h t hht => ?_⟩
  · simp [get_hint_type_origin_or_none, ha]
  · simp [get_hint_type_origin, get_hint_type_origin_or_none, ha]
  · exact str_occurs_mid (hrepr (.attr a)) "PEP-agnostic type hint "
      (hrepr (.attr a)) " originates from no non-\"typing\" type."
      (str_occurs_refl (hrepr (.attr a)))
  · cases h with
    | cls c =>
      simp [get_hint_type_origin, get_hint_type_origin_or_none] at hht
      simp [get_hint_type_origin_or_none, hht]
    | attr a =>
      cases hta : table a with
      | none =>
        simp [get_hint_type_origin, get_hint_type_origin_or_none, hta] at hht
      | some t0 =>
        simp [get_hint_type_origin, get_hint_type_origin_or_none, hta] at hht
        simp [get_hint_type_origin_or_none, hta, hht]
    | unhashable u =>
      simp [get_hint_type_origin, get_hint_type_origin_or_none] at hht

/-- Witness for C4 at a concrete empty table: the no-mapped-origin hypothesis
is discharged definitionally. -/
theorem origin_resolution_round_trip_witness :
    get_hint_type_origin_or_none (fun _ => (none : Option TCls)) (.attr 0) =
      .ok none ∧
    get_hint_type_origin (fun _ => (none : Option TCls))
      (fun _ => "typing.Dict") (.attr 0) =
      .error (.noOrigin (noOriginMsg "typing.Dict")) := by
  have h := origin_resolution_round_trip (fun _ => (none : Option TCls))
    (fun _ => "typing.Dict")
  exact ⟨(h.2.1 0 rfl).1, (h.2.1 0 rfl).2.1⟩

/-- C6: unhashable-input failure.  Both origin-resolution variants raise the
hashability error on every unhashable descriptor — never a missing-origin
result and never the no-origin error. -/
theorem origin_unhashable_error {Cls : Type} (table : Nat → Option Cls)
    (hrepr : Hint Cls → String) (u : Nat) :
    get_hint_type_origin_or_none table (.unhashable u) =
      .error .unhashableInput ∧
    get_hint_type_origin table hrepr (.unhashable u) =
      .error .unhashableInput :=
  ⟨rfl, rfl⟩

/-! ### Claim about the memoized platform tester -/

theorem is_os_macos_cache_inv (env : Nat → String) (n : Nat) :
    (is_os_macos_calls env n).2 = some (is_os_macos_body (env 0)) := by
  induction n with
  | zero => rfl
  | succ k ih => simp [is_os_macos_calls, ih, cached_call]

/-- C10: every call of the memoized `is_os_macos` — the first and all
subsequent ones, under an environment that may change between calls —
returns exactly the comparison of the first call-time `platform.system()`
result against `Darwin`. -/
theorem is_os_macos_memoized (env : Nat → String) (n : Nat) :
    (is_os_macos_calls env n).1 = is_os_macos_body (env 0) ∧
    ((is_os_macos_calls env n).1 = true ↔ env 0 = "Darwin") := by
  have h1 : (is_os_macos_calls env n).1 = is_os_macos_body (env 0) := by
    cases n with
    | zero => rfl
    | succ k =>
      have h := is_os_macos_cache_inv env k
      simp [is_os_macos_calls, h, cached_call]
  refine ⟨h1, ?_⟩
  rw [h1]
  simp [is_os_macos_body]

/-! ### Helper lemmas: argument validation -/

theorem classes_map_ok {Cls : Type} (cs : List Cls) (i : Nat) :
    classes_or_first_nonclass (cs.map Val.cls) i = .ok cs := by
  induction cs generalizing i with
  | nil => rfl
  | cons c rest ih => simp [classes_or_first_nonclass, ih]

theorem classes_noncls_error {Cls : Type} (args : List (Val Cls)) (rep : String)
    (hmem : Val.nonCls rep ∈ args) (i : Nat) :
    is_error (classes_or_first_nonclass args i) = true := by
  induction args generalizing i with
  | nil => cases hmem
  | cons a rest ih =>
    cases a with
    | nonCls r => rfl
    | cls c =>
      have hm : Val.nonCls rep ∈ rest := by
        rcases List.mem_cons.mp hmem with h1 | h2
        · cases h1
        · exact h2
      have hr := ih hm (i + 1)
      cases hrec : classes_or_first_nonclass rest (i + 1) with
      | ok cs => rw [hrec] at hr; simp [is_error] at hr
      | error e => simp [classes_or_first_nonclass, hrec, is_error]

theorem first_nonissub_none {Cls : Type} (K : Kind Cls) (cs : List Cls)
    (h : ∀ c ∈ cs, K.issub c = true) :
    first_non_issubclassable K cs = none := by
  induction cs with
  | nil => rfl
  | cons c rest ih =>
    have hc := h c (List.mem_cons_self c rest)
    have hrest := ih (fun x hx => h x (List.mem_cons_of_mem c hx))
    simp [first_non_issubclassable, hc, hrest]

theorem first_nonissub_some_of_mem {Cls : Type} (K : Kind Cls) (cs : List Cls)
    (c : Cls) (hc : c ∈ cs) (hbad : K.issub c = false) :
    ∃ c0, first_non_issubclassable K cs = some c0 := by
  induction cs with
  | nil => cases hc
  | cons a rest ih =>
    cases ha : K.issub a with
    | false => exact ⟨a, by simp [first_non_issubclassable, ha]⟩
    | true =>
      have hm : c ∈ rest := by
        rcases List.mem_cons.mp hc with h1 | h2
        · subst h1; rw [ha] at hbad; cases hbad
        · exact h2
      obtain ⟨c0, hc0⟩ := ih hm
      exact ⟨c0, by simp [first_non_issubclassable, ha, hc0]⟩

theorem validate_ok_of_good {Cls : Type} (K : Kind Cls) (cs : List Cls)
    (hne : cs ≠ []) (hgood : ∀ c ∈ cs, K.issub c = true) :
    validate_is_subclass_args K (cs.map Val.cls) = .ok cs := by
  cases cs with
  | nil => cases hne rfl
  | cons c rest =>
    have h1 : classes_or_first_nonclass (Val.cls c :: rest.map Val.cls) 0 =
        .ok (c :: rest) := classes_map_ok (c :: rest) 0
    have h2 : first_non_issubclassable K (c :: rest) = none :=
      first_nonissub_none K (c :: rest) hgood
    simp [validate_is_subclass_args, h1, h2]

theorem validate_noncls_error {Cls : Type} (K : Kind Cls)
    (args : List (Val Cls)) (rep : String) (hmem : Val.nonCls rep ∈ args) :
    is_error (validate_is_subclass_args K args) = true := by
  cases args with
  | nil => cases hmem
  | cons a rest =>
    have h := classes_noncls_error (a :: rest) rep hmem 0
    cases hr : classes_or_first_nonclass (a :: rest) 0 with
    | ok cs => rw [hr] at h; simp [is_error] at h
    | error e =>
      obtain ⟨i, r⟩ := e
      simp [validate_is_subclass_args, hr, is_error]

theorem validate_nonissub_error {Cls : Type} (K : Kind Cls) (cs : List Cls)
    (c : Cls) (hc : c ∈ cs) (hbad : K.issub c = false) :
    is_error (validate_is_subclass_args K (cs.map Val.cls)) = true := by
  cases cs with
  | nil => cases hc
  | cons a rest =>
    obtain ⟨c0, hc0⟩ := first_nonissub_some_of_mem K (a :: rest) c hc hbad
    have h1 : classes_or_first_nonclass (Val.cls a :: rest.map Val.cls) 0 =
        .ok (a :: rest) := classes_map_ok (a :: rest) 0
    simp [validate_is_subclass_args, h1, hc0, is_error]

/-! ### Helper lemmas: the validator cache -/

theorem entry_ok_validator {Cls : Type} [DecidableEq Cls] (K : Kind Cls)
    (n : Nat) (e : List (Val Cls) × Nat × Validator Cls)
    (h : entry_ok K n e = true) :
    e.2.1 < n ∧ ∃ cs, validate_is_subclass_args K e.1 = .ok cs ∧
      e.2.2 = Validator.leaf cs := by
  unfold entry_ok at h
  cases hv : validate_is_subclass_args K e.1 with
  | error e0 => rw [hv] at h; simp at h
  | ok cs =>
    rw [hv] at h
    simp at h
    exact ⟨h.1, cs, rfl, h.2⟩

theorem cache_lookup_mem {Cls : Type} [DecidableEq Cls] (key : List (Val Cls))
    (entries : List (List (Val Cls) × Nat × Validator Cls)) (i : Nat)
    (v : Validator Cls) (h : cache_lookup key entries = some (i, v)) :
    (key, i, v) ∈ entries := by
  induction entries with
  | nil => cases h
  | cons e rest ih =>
    obtain ⟨k, iv⟩ := e
    by_cases hk : k = key
    · subst hk
      simp [cache_lookup] at h
      rw [h]
      exact List.mem_cons_self _ _
    · simp [cache_lookup, hk] at h
      exact List.mem_cons_of_mem _ (ih h)

theorem cache_lookup_self {Cls : Type} [DecidableEq Cls] (key : List (Val Cls))
    (i : Nat) (v : Validator Cls)
    (rest : List (List (Val Cls) × Nat × Validator Cls)) :
    cache_lookup key ((key, i, v) :: rest) = some (i, v) := by
  simp [cache_lookup]

/-- Case analysis of a successful subscription: either the key was cached and
everything is returned unchanged, or the key was absent, validation succeeded,
and a freshly tagged leaf was inserted. -/
theorem getitem_ok_cases {Cls : Type} [DecidableEq Cls] (K : Kind Cls)
    (st st' : CacheState Cls) (args : List (Val Cls)) (i : Nat)
    (v : Validator Cls)
    (h : is_subclass_getitem K st args = .ok (i, v, st')) :
    ((args, i, v) ∈ st.entries ∧ st' = st) ∨
    (cache_lookup args st.entries = none ∧ i = st.nextId ∧
      (∃ cs, validate_is_subclass_args K args = .ok cs ∧
        v = Validator.leaf cs) ∧
      st' = ⟨(args, i, v) :: st.entries, st.nextId + 1⟩) := by
  unfold is_subclass_getitem at h
  cases hl : cache_lookup args st.entries with
  | some iv =>
    rw [hl] at h
    obtain ⟨i0, v0⟩ := iv
    simp only [Except.ok.injEq, Prod.mk.injEq] at h
    obtain ⟨hi, hv, hst⟩ := h
    refine Or.inl ⟨?_, hst.symm⟩
    rw [← hi, ← hv]
    exact cache_lookup_mem args st.entries i0 v0 hl
  | none =>
    rw [hl] at h
    cases hval : validate_is_subclass_args K args with
    | error e => rw [hval] at h; cases h
    | ok cs =>
      rw [hval] at h
      simp only [Except.ok.injEq, Prod.mk.injEq] at h
      obtain ⟨hi, hv, hst⟩ := h
      subst hi; subst hv
      exact Or.inr ⟨rfl, rfl, ⟨cs, rfl, rfl⟩, hst.symm⟩

/-- If the arguments fail validation, subscription fails from every
well-formed cache state: a failing key can never have been cached. -/
theorem getitem_error_of_validate_error {Cls : Type} [DecidableEq Cls]
    (K : Kind Cls) (st : CacheState Cls) (args : List (Val Cls))
    (hwf : cache_wf K st)
    (hbad : is_error (validate_is_subclass_args K args) = true) :
    is_error (is_subclass_getitem K st args) = true := by
  cases hres : is_subclass_getitem K st args with
  | error e => simp [is_error]
  | ok out =>
    exfalso
    obtain ⟨i, v, st'⟩ := out
    rcases getitem_ok_cases K st st' args i v hres with
      ⟨hmem, _⟩ | ⟨_, _, ⟨cs, hval, _⟩, _⟩
    · have hok := hwf.1 _ hmem
      obtain ⟨_, cs0, hv0, _⟩ := entry_ok_validator K st.nextId _ hok
      rw [hv0] at hbad
      simp [is_error] at hbad
    · rw [hval] at hbad
      simp [is_error] at hbad

/-! ### Claims about the validator DSL -/

/-- C1: identity memoization of validator subscription.  When subscripting the
subclass Validator Kind succeeds, subscripting again with an argument sequence
that is equal to the first one — whether it is the same tuple or an
equal-but-freshly-constructed one, since only its value enters the
canonicalized cache key — returns the reference-identical object: the same
allocation tag, the same validator, and an unchanged cache. -/
theorem vale_subscription_memoized {Cls : Type} [DecidableEq Cls]
    (K : Kind Cls) (st st' : CacheState Cls) (args args' : List (Val Cls))
    (i : Nat) (v : Validator Cls) (heq : args' = args)
    (h1 : is_subclass_getitem K st args = .ok (i, v, st')) :
    is_subclass_getitem K st' args' = .ok (i, v, st') := by
  rw [heq]
  rcases getitem_ok_cases K st st' args i v h1 with
    ⟨hmem, hst⟩ | ⟨hl, hi, ⟨cs, hval, hv⟩, hst⟩
  · subst hst
    exact h1
  · subst hst
    unfold is_subclass_getitem
    rw [cache_lookup_self]

/-- Witness for C1: re-subscripting `IsSubclass[Class]` immediately after the
first subscription returns the object tagged 0 and leaves the cache state
unchanged. -/
theorem vale_subscription_memoized_witness :
    is_subclass_getitem tKind
      ⟨[([Val.cls TCls.tClass], 0, Validator.leaf [TCls.tClass])], 1⟩
      [Val.cls TCls.tClass] =
    .ok (0, Validator.leaf [TCls.tClass],
      ⟨[([Val.cls TCls.tClass], 0, Validator.leaf [TCls.tClass])], 1⟩) :=
  vale_subscription_memoized tKind emptyCache
    ⟨[([Val.cls TCls.tClass], 0, Validator.leaf [TCls.tClass])], 1⟩
    [Val.cls TCls.tClass] [Val.cls TCls.tClass] 0
    (Validator.leaf [TCls.tClass]) rfl rfl

/-- C2: predicate semantics of a successfully subscripted subclass validator.
The returned validator is the leaf over the validated candidate classes; its
`is_valid` accepts a class exactly when it subclasses at least one candidate
and is `false` on every non-class value.  `is_valid` is a total boolean
function of the embedding, so validation of a constructed validator never
raises. -/
theorem vale_is_subclass_semantics {Cls : Type} [DecidableEq Cls]
    (K : Kind Cls) (st st' : CacheState Cls) (args : List (Val Cls))
    (cs : List Cls) (i : Nat) (v : Validator Cls)
    (hwf : cache_wf K st)
    (hval : validate_is_subclass_args K args = .ok cs)
    (h : is_subclass_getitem K st args = .ok (i, v, st')) :
    (∀ c : Cls, is_valid K v (.cls c) = cs.any (fun cand => K.sub c cand)) ∧
    (∀ rep : String, is_valid K v (.nonCls rep) = false) := by
  have hv : v = Validator.leaf cs := by
    rcases getitem_ok_cases K st st' args i v h with
      ⟨hmem, _⟩ | ⟨_, _, ⟨cs1, hval1, hv1⟩, _⟩
    · have hok := hwf.1 _ hmem
      obtain ⟨_, cs0, hv0, hl0⟩ := entry_ok_validator K st.nextId _ hok
      have hv0' : validate_is_subclass_args K args = .ok cs0 := hv0
      have hl0' : v = Validator.leaf cs0 := hl0
      rw [hval] at hv0'
      injection hv0' with hcs
      rw [hl0', hcs]
    · rw [hval] at hval1
      injection hval1 with hcs
      rw [hv1, hcs]
  subst hv
  exact ⟨fun c => rfl, fun rep => rfl⟩

/-- Witness for C2 at `IsSubclass[str, bytes]` subscribed on the empty cache:
the validator accepts `bytes` through the candidate test and rejects a
non-class string. -/
theorem vale_is_subclass_semantics_witness :
    is_valid tKind (Validator.leaf [TCls.tStr, TCls.tBytes])
      (Val.cls TCls.tBytes) =
      ([TCls.tStr, TCls.tBytes].any fun cand => tKind.sub TCls.tBytes cand) ∧
    is_valid tKind (Validator.leaf [TCls.tStr, TCls.tBytes])
      (Val.nonCls "Bursting through these dark mountains like the flame") =
      false := by
  have h := vale_is_subclass_semantics tKind emptyCache
    ⟨[([Val.cls TCls.tStr, Val.cls TCls.tBytes], 0,
       Validator.leaf [TCls.tStr, TCls.tBytes])], 1⟩
    [Val.cls TCls.tStr, Val.cls TCls.tBytes] [TCls.tStr, TCls.tBytes] 0
    (Validator.leaf [TCls.tStr, TCls.tBytes]) (by decide) rfl rfl
  exact ⟨h.1 TCls.tBytes, h.2 _⟩

/-- C3: subscription-time error taxonomy of the subclass Validator Kind, from
any well-formed cache state.  Zero arguments fail; any argument sequence
containing a non-class fails; an all-class sequence containing a
non-issubclassable class fails; a nonempty sequence of issubclassable classes
succeeds.  All failures are raised synchronously by subscription itself —
`is_valid` is total and never raises. -/
theorem vale_subscription_error_taxonomy {Cls : Type} [DecidableEq Cls]
    (K : Kind Cls) (st : CacheState Cls) (hwf : cache_wf K st) :
    is_error (is_subclass_getitem K st []) = true ∧
    (∀ (args : List (Val Cls)) (rep : String), Val.nonCls rep ∈ args →
        is_error (is_subclass_getitem K st args) = true) ∧
    (∀ (cs : List Cls) (c : Cls), c ∈ cs → K.issub c = false →
        is_error (is_subclass_getitem K st (cs.map Val.cls)) = true) ∧
    (∀ cs : List Cls, cs ≠ [] → (∀ c ∈ cs, K.issub c = true) →
        is_error (is_subclass_getitem K st (cs.map Val.cls)) = false) := by
  refine ⟨?_, fun args rep hmem => ?_, fun cs c hc hbad => ?_,
    fun cs hne hgood => ?_⟩
  · exact getitem_error_of_validate_error K st [] hwf rfl
  · exact getitem_error_of_validate_error K st args hwf
      (validate_noncls_error K args rep hmem)
  · exact getitem_error_of_validate_error K st (cs.map Val.cls) hwf
      (validate_nonissub_error K cs c hc hbad)
  · have hok := validate_ok_of_good K cs hne hgood
    unfold is_subclass_getitem
    cases hl : cache_lookup (cs.map Val.cls) st.entries with
    | some iv => obtain ⟨i0, v0⟩ := iv; rfl
    | none => rw [hok]; rfl

/-- Witness for C3: the four taxonomy cases at concrete subscriptions of the
test kind on the empty cache. -/
theorem vale_subscription_error_taxonomy_witness :
    is_error (is_subclass_getitem tKind emptyCache ([] : List (Val TCls))) =
      true ∧
    is_error (is_subclass_getitem tKind emptyCache
      [Val.cls TCls.tStr,
       Val.nonCls "Of lightning through the tempest"]) = true ∧
    is_error (is_subclass_getitem tKind emptyCache
      ([TCls.tBytes, TCls.tNonIssub].map Val.cls)) = true ∧
    is_error (is_subclass_getitem tKind emptyCache
      ([TCls.tClass].map Val.cls)) = false := by
  have h := vale_subscription_error_taxonomy tKind emptyCache (by decide)
  exact ⟨h.1,
    h.2.1 _ "Of lightning through the tempest" (by simp),
    h.2.2.1 _ TCls.tNonIssub (by simp) rfl,
    h.2.2.2 _ (by simp) (by decide)⟩

/-- C5: OR composition correctness and closure.  The OR composite of two
validators is itself a validator whose `is_valid` is the pointwise disjunction
of the operand predicates, on every value; a chain of three OR-composed
validators validates the three-way disjunction; and the representation of an
OR composite contains the OR marker, the literal `|`. -/
theorem vale_or_composition {Cls : Type} (K : Kind Cls) :
    (∀ (v1 v2 : Validator Cls) (x : Val Cls),
        is_valid K (.vor v1 v2) x = (is_valid K v1 x || is_valid K v2 x)) ∧
    (∀ (v1 v2 v3 : Validator Cls) (x : Val Cls),
        is_valid K (.vor (.vor v1 v2) v3) x =
          (is_valid K v1 x || is_valid K v2 x || is_valid K v3 x)) ∧
    (∀ v1 v2 : Validator Cls,
        str_occurs "|" (validator_repr K (.vor v1 v2)) = true) := by
  refine ⟨fun v1 v2 x => rfl, fun v1 v2 v3 x => rfl, fun v1 v2 => ?_⟩
  have hrep : validator_repr K (.vor v1 v2) =
      paren_if (is_composite v1) (validator_repr K v1) ++ " | " ++
      paren_if (is_composite v2) (validator_repr K v2) := rfl
  rw [hrep]
  exact str_occurs_mid "|" _ " | " _ (by decide)

/-- C7: order sensitivity of the validator cache.  From any well-formed cache
state, two successful subscriptions in sequence with different canonicalized
argument sequences — in particular `IsSubclass[A, B]` versus
`IsSubclass[B, A]` — return objects with different allocation tags, i.e.
distinct objects. -/
theorem vale_cache_order_sensitive {Cls : Type} [DecidableEq Cls]
    (K : Kind Cls) (st st1 st2 : CacheState Cls)
    (args1 args2 : List (Val Cls)) (i1 i2 : Nat) (v1 v2 : Validator Cls)
    (hwf : cache_wf K st) (hne : args1 ≠ args2)
    (h1 : is_subclass_getitem K st args1 = .ok (i1, v1, st1))
    (h2 : is_subclass_getitem K st1 args2 = .ok (i2, v2, st2)) :
    i1 ≠ i2 := by
  rcases getitem_ok_cases K st st1 args1 i1 v1 h1 with
    ⟨hmem1, hst1⟩ | ⟨hl1, hi1, ⟨cs1, hval1, hv1⟩, hst1⟩
  · rw [hst1] at h2
    have hlt1 : i1 < st.nextId :=
      (entry_ok_validator K st.nextId _ (hwf.1 _ hmem1)).1
    rcases getitem_ok_cases K st st2 args2 i2 v2 h2 with
      ⟨hmem2, _⟩ | ⟨_, hi2, _, _⟩
    · intro hii
      have heq := List.inj_on_of_nodup_map hwf.2 hmem1 hmem2 (by simpa using hii)
      exact hne (congrArg Prod.fst heq)
    · subst hi2
      exact Nat.ne_of_lt hlt1
  · subst hi1
    subst hst1
    rcases getitem_ok_cases K _ st2 args2 i2 v2 h2 with
      ⟨hmem2, _⟩ | ⟨_, hi2, _, _⟩
    · rcases List.mem_cons.mp hmem2 with hhead | htail
      · exfalso
        exact hne (congrArg Prod.fst hhead).symm
      · have hlt2 : i2 < st.nextId :=
          (entry_ok_validator K st.nextId _ (hwf.1 _ htail)).1
        exact (Nat.ne_of_lt hlt2).symm
    · subst hi2
      simp

/-- Witness for C7: subscribing `IsSubclass[Class, Subclass]` and then
`IsSubclass[Subclass, Class]` from the empty cache allocates the distinct
tags 0 and 1. -/
theorem vale_cache_order_sensitive_witness :
    is_subclass_getitem tKind emptyCache
      [Val.cls TCls.tClass, Val.cls TCls.tSubclass] =
      .ok (0, Validator.leaf [TCls.tClass, TCls.tSubclass],
        ⟨[([Val.cls TCls.tClass, Val.cls TCls.tSubclass], 0,
           Validator.leaf [TCls.tClass, TCls.tSubclass])], 1⟩) ∧
    is_subclass_getitem tKind
      ⟨[([Val.cls TCls.tClass, Val.cls TCls.tSubclass], 0,
         Validator.leaf [TCls.tClass, TCls.tSubclass])], 1⟩
      [Val.cls TCls.tSubclass, Val.cls TCls.tClass] =
      .ok (1, Validator.leaf [TCls.tSubclass, TCls.tClass],
        ⟨[([Val.cls TCls.tSubclass, Val.cls TCls.tClass], 1,
           Validator.leaf [TCls.tSubclass, TCls.tClass]),
          ([Val.cls TCls.tClass, Val.cls TCls.tSubclass], 0,
           Validator.leaf [TCls.tClass, TCls.tSubclass])], 2⟩) ∧
    (0 : Nat) ≠ 1 :=
  ⟨rfl, rfl,
    vale_cache_order_sensitive tKind emptyCache
      ⟨[([Val.cls TCls.tClass, Val.cls TCls.tSubclass], 0,
         Validator.leaf [TCls.tClass, TCls.tSubclass])], 1⟩
      ⟨[([Val.cls TCls.tSubclass, Val.cls TCls.tClass], 1,
         Validator.leaf [TCls.tSubclass, TCls.tClass]),
        ([Val.cls TCls.tClass, Val.cls TCls.tSubclass], 0,
         Validator.leaf [TCls.tClass, TCls.tSubclass])], 2⟩
      [Val.cls TCls.tClass, Val.cls TCls.tSubclass]
      [Val.cls TCls.tSubclass, Val.cls TCls.tClass] 0 1
      (Validator.leaf [TCls.tClass, TCls.tSubclass])
      (Validator.leaf [TCls.tSubclass, TCls.tClass])
      (by decide) (by decide) rfl rfl⟩

/-- C8: leaf-validator representation format.  The representation of a leaf
validator is the kind name followed by the bracketed comma-join of the fully
qualified candidate names in subscription order, and therefore the fully
qualified name of every subscripted class occurs in it. -/
theorem vale_leaf_repr {Cls : Type} (K : Kind Cls) (cs : List Cls) :
    validator_repr K (.leaf cs) =
      "IsSubclass[" ++ join_names (cs.map K.qn) ++ "]" ∧
    (∀ c ∈ cs, str_occurs (K.qn c) (validator_repr K (.leaf cs)) = true) := by
  refine ⟨rfl, fun c hc => ?_⟩
  have h1 : str_occurs (K.qn c) (join_names (cs.map K.qn)) = true :=
    str_occurs_join_names (K.qn c) (cs.map K.qn) (List.mem_map_of_mem K.qn hc)
  have h2 : validator_repr K (.leaf cs) =
      "IsSubclass[" ++ join_names (cs.map K.qn) ++ "]" := rfl
  rw [h2]
  exact str_occurs_mid (K.qn c) "IsSubclass[" (join_names (cs.map K.qn)) "]" h1

/-- Witness for C8: the fully qualified name `str` occurs in the
representation of `IsSubclass[str, bytes]`. -/
theorem vale_leaf_repr_witness :
    str_occurs (tKind.qn TCls.tStr)
      (validator_repr tKind (.leaf [TCls.tStr, TCls.tBytes])) = true :=
  (vale_leaf_repr tKind [TCls.tStr, TCls.tBytes]).2 TCls.tStr (by simp)

/-- C9: the subclass Validator Kind is not instantiable — calling it as a
constructor with any argument sequence raises
`BeartypeValeSubscriptionException`; only subscription produces validators. -/
theorem vale_kind_not_instantiable {Cls : Type} (args : List (Val Cls)) :
    is_error (is_subclass_new args) = true :=
  rfl

end Beartype
